import Mathlib

/-!
Verification of the filesystem-observation core of the logdna agent
(`src/common/fs/src/tail.rs`, `src/common/fs/src/cache/watch.rs`,
`src/common/fs/src/cache/entry.rs`, `src/common/source/src/lib.rs`).

File content is modelled as a list of bytes (`List Nat`, newline = 10),
offsets and lengths as `Nat`, paths as `String`.
-/

set_option maxHeartbeats 1000000
set_option maxRecDepth 8000

namespace LogdnaFs

/-- Byte value of the newline character. -/
def newlineByte : Nat := 10

/-- Model of `http::types::body::LineBuilder` as consumed by the tailer:
it records the line text (as bytes, after the trailing newline is removed)
and the originating file path. -/
structure LineBuilder where
  line : List Nat
  file : String
  deriving Repr, DecidableEq

namespace Tailer

/-- Model of `BufReader::read_until(b:newline)` applied to the byte suffix
starting at the current position: returns the bytes read, up to and
including the first newline byte when one exists, all remaining bytes
otherwise (`tail.rs` line 174). -/
def readUntil : List Nat → List Nat
  | [] => []
  | b :: rest => if b = 10 then [b] else b :: readUntil rest

theorem readUntil_length_le (l : List Nat) : (readUntil l).length ≤ l.length := by
  induction l with
  | nil => simp [readUntil]
  | cons b rest ih =>
    simp only [readUntil]
    split
    · simp
    · simpa using Nat.succ_le_succ ih

theorem readUntil_ne_nil (l : List Nat) (h : l ≠ []) : readUntil l ≠ [] := by
  cases l with
  | nil => exact absurd rfl h
  | cons b rest =>
    simp only [readUntil]
    split <;> simp

/-- `readUntil` returns a prefix of its input. -/
theorem readUntil_eq_take (l : List Nat) :
    readUntil l = l.take (readUntil l).length := by
  induction l with
  | nil => simp [readUntil]
  | cons b rest ih =>
    simp only [readUntil]
    split
    · simp
    · simp [List.take_cons]
      exact ih

/-- The bytes before the final byte returned by `readUntil` contain no
newline. -/
theorem readUntil_dropLast_no_newline (l : List Nat) :
    10 ∉ (readUntil l).dropLast := by
  induction l with
  | nil => simp [readUntil]
  | cons b rest ih =>
    simp only [readUntil]
    split
    · simp
    · rename_i hb
      rcases hrest : readUntil rest with _ | ⟨c, cs⟩
      · simp
      · rw [List.dropLast_cons_of_ne_nil (by simp [hrest])]
        rw [hrest] at ih
        simp only [List.mem_cons]
        rintro (h | h)
        · exact hb h.symm
        · exact ih h

theorem readUntil_getLast?_of_no_newline (l : List Nat) (h : 10 ∉ l) :
    (readUntil l).getLast? ≠ some 10 := by
  induction l with
  | nil => simp [readUntil]
  | cons b rest ih =>
    simp only [List.mem_cons, not_or] at h
    simp only [readUntil]
    rw [if_neg (fun hb => h.1 hb.symm)]
    rcases hrest : readUntil rest with _ | ⟨c, cs⟩
    · simpa using fun hb => h.1 hb.symm
    · rw [List.getLast?_cons_cons]
      rw [hrest] at ih
      exact ih h.2

/-- When `readUntil` ends with a newline, restoring that newline after
`dropLast` recovers the bytes read. -/
theorem readUntil_dropLast_append (raw : List Nat) (h : raw.getLast? = some 10) :
    raw.dropLast ++ [10] = raw := by
  rcases List.eq_nil_or_concat raw with rfl | ⟨init, last, rfl⟩
  · exact Option.noConfusion h
  · simp only [List.concat_eq_append, List.getLast?_concat, Option.some.injEq] at h
    simp [h]

/-- Model of the read loop in `Tailer::tail` (`tail.rs` lines 171-210)
applied to the byte suffix starting at the stored offset: repeatedly
`readUntil` a line; if it ends with a newline, strip the newline, record
the line and advance; otherwise stop (partial read).  Returns the complete
lines in order (newline removed) and the total number of bytes consumed. -/
def tailLoop (rest : List Nat) : List (List Nat) × Nat :=
  if hr : rest = [] then ([], 0)
  else
    if (readUntil rest).getLast? = some 10 then
      ((readUntil rest).dropLast :: (tailLoop (rest.drop (readUntil rest).length)).1,
       (readUntil rest).length + (tailLoop (rest.drop (readUntil rest).length)).2)
    else ([], 0)
termination_by rest.length
decreasing_by
  all_goals
    simp only [List.length_drop]
    have h1 : (readUntil rest).length ≤ rest.length := readUntil_length_le rest
    have h2 : readUntil rest ≠ [] := readUntil_ne_nil rest hr
    have h3 : 0 < (readUntil rest).length := List.length_pos.mpr h2
    omega

theorem tailLoop_nil : tailLoop [] = ([], 0) := by rw [tailLoop]; simp

/-- Unfolding equation for `tailLoop` on a nonempty suffix whose first
record is newline-terminated. -/
theorem tailLoop_eq_pos (rest : List Nat) (hne : rest ≠ [])
    (hlast : (readUntil rest).getLast? = some 10) :
    tailLoop rest =
      ((readUntil rest).dropLast :: (tailLoop (rest.drop (readUntil rest).length)).1,
       (readUntil rest).length + (tailLoop (rest.drop (readUntil rest).length)).2) := by
  rw [tailLoop, dif_neg hne, if_pos hlast]

/-- Unfolding equation for `tailLoop` on a nonempty suffix whose first
record is not newline-terminated. -/
theorem tailLoop_eq_neg (rest : List Nat) (hne : rest ≠ [])
    (hlast : ¬ (readUntil rest).getLast? = some 10) :
    tailLoop rest = ([], 0) := by
  rw [tailLoop, dif_neg hne, if_neg hlast]

/-- A suffix holding no newline yields no lines and consumes nothing:
the partial fragment is left for a later pass. -/
theorem tailLoop_no_newline (rest : List Nat) (h : 10 ∉ rest) :
    tailLoop rest = ([], 0) := by
  rcases eq_or_ne rest [] with rfl | hne
  · exact tailLoop_nil
  · exact tailLoop_eq_neg rest hne (readUntil_getLast?_of_no_newline rest h)

theorem tailLoop_consumed_le (rest : List Nat) :
    (tailLoop rest).2 ≤ rest.length := by
  induction rest using tailLoop.induct with
  | case1 => simp [tailLoop_nil]
  | case2 rest hne hlast ih =>
    rw [tailLoop_eq_pos rest hne hlast]
    have h1 : (readUntil rest).length ≤ rest.length := readUntil_length_le rest
    simp only [List.length_drop] at ih
    simp only []
    omega
  | case3 rest hne hlast =>
    rw [tailLoop_eq_neg rest hne hlast]
    simp

theorem readUntil_getLast?_of_mem (l : List Nat) (h : 10 ∈ l) :
    (readUntil l).getLast? = some 10 := by
  induction l with
  | nil => simp at h
  | cons b rest ih =>
    simp only [readUntil]
    split
    · simp [*]
    · rename_i hb
      have hmem : 10 ∈ rest := by
        rcases List.mem_cons.mp h with h10 | h10
        · exact absurd h10.symm hb
        · exact h10
      have hne : readUntil rest ≠ [] :=
        readUntil_ne_nil rest (by rintro rfl; simp at hmem)
      rcases hrest : readUntil rest with _ | ⟨c, cs⟩
      · exact absurd hrest hne
      · rw [List.getLast?_cons_cons]
        rw [hrest] at ih
        exact ih hmem

/-- After the loop, the unconsumed suffix holds no newline byte: every
newline-terminated line has been read. -/
theorem tailLoop_no_newline_after (rest : List Nat) :
    10 ∉ rest.drop (tailLoop rest).2 := by
  induction rest using tailLoop.induct with
  | case1 => simp [tailLoop_nil]
  | case2 rest hne hlast ih =>
    rw [tailLoop_eq_pos rest hne hlast]
    simp only [List.drop_drop] at ih
    simpa using ih
  | case3 rest hne hlast =>
    rw [tailLoop_eq_neg rest hne hlast]
    simp only [List.drop_zero]
    intro hmem
    exact hlast (readUntil_getLast?_of_mem rest hmem)

/-- The last byte read by a newline-terminated `readUntil` is the newline
at index one less than the bytes read. -/
theorem readUntil_newline_at (rest : List Nat)
    (hlast : (readUntil rest).getLast? = some 10) :
    rest[(readUntil rest).length - 1]? = some 10 := by
  induction rest with
  | nil => exact Option.noConfusion hlast
  | cons b rest ih =>
    by_cases hb : b = 10
    · subst hb
      simp [readUntil]
    · rw [readUntil] at hlast ⊢
      rw [if_neg hb] at hlast ⊢
      have hne : readUntil rest ≠ [] := by
        intro h0
        rw [h0] at hlast
        simp only [List.getLast?_singleton, Option.some.injEq] at hlast
        exact hb hlast
      obtain ⟨c, cs, hrr⟩ := List.exists_cons_of_ne_nil hne
      rw [hrr, List.getLast?_cons_cons, ← hrr] at hlast
      have hpos : 0 < (readUntil rest).length := List.length_pos.mpr hne
      have harith : (b :: readUntil rest).length - 1
          = ((readUntil rest).length - 1) + 1 := by
        simp only [List.length_cons]
        omega
      rw [harith, List.getElem?_cons_succ]
      exact ih hlast

/-- The loop stops exactly at a line boundary: either nothing was
consumed, or the last consumed byte is a newline. -/
theorem tailLoop_stops_at_boundary (rest : List Nat) :
    (tailLoop rest).2 = 0 ∨ rest[(tailLoop rest).2 - 1]? = some 10 := by
  induction rest using tailLoop.induct with
  | case1 => left; simp [tailLoop_nil]
  | case2 rest hne hlast ih =>
    right
    rw [tailLoop_eq_pos rest hne hlast]
    have hru : readUntil rest ≠ [] := readUntil_ne_nil rest hne
    have hpos : 0 < (readUntil rest).length := List.length_pos.mpr hru
    rcases Nat.eq_zero_or_pos (tailLoop (rest.drop (readUntil rest).length)).2 with hc0 | hcpos
    · rw [hc0]
      have harith : (readUntil rest).length + 0 - 1 = (readUntil rest).length - 1 := by omega
      simp only [harith]
      exact readUntil_newline_at rest hlast
    · rcases ih with h0 | hb
      · omega
      · rw [List.getElem?_drop] at hb
        have harith : (readUntil rest).length + (tailLoop (rest.drop (readUntil rest).length)).2 - 1
            = (readUntil rest).length + ((tailLoop (rest.drop (readUntil rest).length)).2 - 1) := by
          omega
        rw [harith]
        exact hb
  | case3 rest hne hlast =>
    left
    rw [tailLoop_eq_neg rest hne hlast]

/-- Re-appending the stripped newline to each emitted line and
concatenating reconstructs exactly the consumed prefix of the suffix. -/
theorem tailLoop_flatten (rest : List Nat) :
    ((tailLoop rest).1.map (fun l => l ++ [10])).flatten = rest.take (tailLoop rest).2 := by
  induction rest using tailLoop.induct with
  | case1 => simp [tailLoop_nil]
  | case2 rest hne hlast ih =>
    rw [tailLoop_eq_pos rest hne hlast]
    simp only [List.map_cons, List.flatten_cons]
    rw [readUntil_dropLast_append (readUntil rest) hlast, ih, List.take_add]
    congr 1
    exact readUntil_eq_take rest
  | case3 rest hne hlast =>
    rw [tailLoop_eq_neg rest hne hlast]
    simp

/-- Every emitted line has had its newline removed. -/
theorem tailLoop_lines_no_newline (rest : List Nat) :
    ∀ l ∈ (tailLoop rest).1, 10 ∉ l := by
  induction rest using tailLoop.induct with
  | case1 => simp [tailLoop_nil]
  | case2 rest hne hlast ih =>
    rw [tailLoop_eq_pos rest hne hlast]
    intro l hl
    rcases List.mem_cons.mp hl with rfl | hl
    · exact readUntil_dropLast_no_newline rest
    · exact ih l hl
  | case3 rest hne hlast =>
    rw [tailLoop_eq_neg rest hne hlast]
    simp

/-- The bytes consumed by the loop are exactly the lengths of the emitted
lines plus one newline byte each. -/
theorem tailLoop_consumed_eq_sum (rest : List Nat) :
    (tailLoop rest).2 = ((tailLoop rest).1.map (fun l => l.length + 1)).sum := by
  have hflat := congrArg List.length (tailLoop_flatten rest)
  rw [List.length_flatten, List.length_take] at hflat
  rw [min_eq_left (tailLoop_consumed_le rest)] at hflat
  rw [← hflat, List.map_map]
  congr 1
  apply List.map_congr_left
  intro l _
  simp [Function.comp]

/-- One line is emitted per newline byte in the suffix. -/
theorem tailLoop_length_eq_count (rest : List Nat) :
    (tailLoop rest).1.length = rest.count 10 := by
  induction rest using tailLoop.induct with
  | case1 => simp [tailLoop_nil]
  | case2 rest hne hlast ih =>
    rw [tailLoop_eq_pos rest hne hlast]
    have hsplit : rest = readUntil rest ++ rest.drop (readUntil rest).length := by
      conv_lhs => rw [← List.take_append_drop (readUntil rest).length rest]
      rw [← readUntil_eq_take rest]
    conv_rhs => rw [hsplit]
    rw [List.count_append]
    have hraw : (readUntil rest).count 10 = 1 := by
      conv_lhs => rw [← readUntil_dropLast_append (readUntil rest) hlast]
      rw [List.count_append]
      have : (readUntil rest).dropLast.count 10 = 0 :=
        List.count_eq_zero.mpr (readUntil_dropLast_no_newline rest)
      simp [this]
    rw [hraw]
    simp only [List.length_cons, ih]
    omega
  | case3 rest hne hlast =>
    rw [tailLoop_eq_neg rest hne hlast]
    have : rest.count 10 = 0 := by
      apply List.count_eq_zero.mpr
      intro hmem
      exact hlast (readUntil_getLast?_of_mem rest hmem)
    simp [this]

/-- Model of `Tailer::tail` (`tail.rs` lines 136-217).  `content` is the
byte content currently readable through the open file handle (so its
length is what `file_handle.metadata().len()` reports), `paths` the
currently-resolved logical paths of the entry, `offset` the stored read
offset.  Returns the optional batch of line groups and the updated
offset (the source mutates `offset` in place). -/
def tail (content : List Nat) (paths : List String) (offset : Nat) :
    Option (List (List LineBuilder)) × Nat :=
  if offset = content.length then (none, offset)
  else if offset > content.length then
    (none, if content.length < 8192 then 0 else content.length)
  else
    ((if ((tailLoop (content.drop offset)).1.map
          (fun l => paths.map (fun p => LineBuilder.mk l p))).length = 0 then none
      else some ((tailLoop (content.drop offset)).1.map
          (fun l => paths.map (fun p => LineBuilder.mk l p)))),
     offset + (tailLoop (content.drop offset)).2)

theorem tail_at_eof (content : List Nat) (paths : List String) (offset : Nat)
    (h : offset = content.length) :
    tail content paths offset = (none, offset) := by
  rw [tail, if_pos h]

theorem tail_truncated (content : List Nat) (paths : List String) (offset : Nat)
    (h : content.length < offset) :
    tail content paths offset
      = (none, if content.length < 8192 then 0 else content.length) := by
  rw [tail, if_neg (by omega), if_pos h]

theorem tail_reading (content : List Nat) (paths : List String) (offset : Nat)
    (h : offset < content.length) :
    tail content paths offset
      = ((if ((tailLoop (content.drop offset)).1.map
            (fun l => paths.map (fun p => LineBuilder.mk l p))).length = 0 then none
          else some ((tailLoop (content.drop offset)).1.map
            (fun l => paths.map (fun p => LineBuilder.mk l p)))),
         offset + (tailLoop (content.drop offset)).2) := by
  rw [tail, if_neg (by omega), if_neg (by omega)]

/-- A pass that starts at or before end-of-file leaves the offset at or
before end-of-file. -/
theorem tail_offset_le (content : List Nat) (paths : List String) (offset : Nat)
    (h : offset ≤ content.length) :
    (tail content paths offset).2 ≤ content.length := by
  rcases Nat.lt_or_ge offset content.length with hlt | hge
  · rw [tail_reading content paths offset hlt]
    have := tailLoop_consumed_le (content.drop offset)
    simp only [List.length_drop] at this
    simp only []
    omega
  · have heq : offset = content.length := le_antisymm h hge
    rw [tail_at_eof content paths offset heq, heq]

/-- After a pass that starts at or before end-of-file, the suffix past the
new offset holds no newline byte. -/
theorem tail_no_newline_after (content : List Nat) (paths : List String) (offset : Nat)
    (h : offset ≤ content.length) :
    10 ∉ content.drop (tail content paths offset).2 := by
  rcases Nat.lt_or_ge offset content.length with hlt | hge
  · rw [tail_reading content paths offset hlt]
    have := tailLoop_no_newline_after (content.drop offset)
    rw [List.drop_drop] at this
    simpa using this
  · have heq : offset = content.length := le_antisymm h hge
    rw [tail_at_eof content paths offset heq, heq]
    simp

/-- `tail` never returns an empty batch: the result is `none` exactly when
no complete line was read. -/
theorem tail_none_iff (content : List Nat) (paths : List String) (offset : Nat)
    (h : offset < content.length) :
    (tail content paths offset).1 = none
      ↔ (tailLoop (content.drop offset)).1 = [] := by
  rw [tail_reading content paths offset h]
  simp only []
  constructor
  · intro hnone
    by_cases hz : ((tailLoop (content.drop offset)).1.map
        (fun l => paths.map (fun p => LineBuilder.mk l p))).length = 0
    · simpa using hz
    · rw [if_neg hz] at hnone
      exact Option.noConfusion hnone
  · intro hnil
    rw [if_pos (by simp [hnil])]

/-- Running `tail` again from the offset produced by a previous in-bounds
pass reads nothing: the offset already sits past every complete line. -/
theorem tail_twice_none (content : List Nat) (paths : List String) (offset : Nat)
    (h : offset ≤ content.length) :
    (tail content paths (tail content paths offset).2).1 = none := by
  have hle : (tail content paths offset).2 ≤ content.length :=
    tail_offset_le content paths offset h
  rcases Nat.lt_or_ge (tail content paths offset).2 content.length with hlt | hge
  · rw [tail_none_iff content paths _ hlt]
    have hnn : 10 ∉ content.drop (tail content paths offset).2 :=
      tail_no_newline_after content paths offset h
    rw [tailLoop_no_newline _ hnn]
  · have heq : (tail content paths offset).2 = content.length := le_antisymm hle hge
    rw [tail_at_eof content paths _ heq]

/-- The domain-event alphabet emitted by the filesystem cache and consumed
by the closure in `Tailer::process` (`tail.rs` lines 48-130). -/
inductive Event where
  | init
  | new
  | write
  | delete
  deriving Repr, DecidableEq

/-- Model of the per-event closure in `Tailer::process` (`tail.rs` lines
45-132) for a `File` entry: `offset` is the entry payload `data`,
`content` the bytes readable through the open file handle, `paths` the
result of `resolve_valid_paths`, and `statLen` the result of
`path.metadata().map(len)` used by `Initialize` (`none` is a stat error,
mapped to 0 by `unwrap_or(0)`).  Returns the updated offset and the
`final_lines` batches collected for the event. -/
def processEvent (offset : Nat) (content : List Nat) (paths : List String)
    (statLen : Option Nat) : Event → Nat × List (List LineBuilder)
  | .init =>
      (if statLen.getD 0 < 8192 then 0 else statLen.getD 0, [])
  | .new =>
      if paths.isEmpty then (offset, [])
      else ((tail content paths 0).2, ((tail content paths 0).1).getD [])
  | .write =>
      if paths.isEmpty then (offset, [])
      else ((tail content paths offset).2, ((tail content paths offset).1).getD [])
  | .delete =>
      if paths.isEmpty then (offset, [])
      else ((tail content paths offset).2, ((tail content paths offset).1).getD [])

/-- C2: on a read pass with `offset < length` where the readable bytes end
without a trailing newline, the pass (1) leaves no newline past the new
offset, (2) stops exactly at a line boundary (the offset is never advanced
into the trailing fragment), (3) emits exactly one line group per newline
byte after the old offset, so the fragment itself is emitted as no line,
and (4) if the suffix is a fragment alone, emits nothing and advances the
offset by zero. -/
theorem claim_C2_partial_line_safety (content : List Nat) (paths : List String)
    (offset : Nat) (hlt : offset < content.length)
    (hfrag : (content.drop offset).getLast? ≠ some 10) :
    (10 ∉ content.drop (tail content paths offset).2) ∧
    ((tail content paths offset).2 = offset ∨
      content[(tail content paths offset).2 - 1]? = some 10) ∧
    (((tail content paths offset).1.getD []).length = (content.drop offset).count 10) ∧
    (10 ∉ content.drop offset → tail content paths offset = (none, offset)) := by
  refine ⟨tail_no_newline_after content paths offset (le_of_lt hlt), ?_, ?_, ?_⟩
  · rw [tail_reading content paths offset hlt]
    simp only []
    rcases Nat.eq_zero_or_pos (tailLoop (content.drop offset)).2 with hc0 | hcpos
    · left
      rw [hc0]
      omega
    · right
      rcases tailLoop_stops_at_boundary (content.drop offset) with h0 | hb
      · omega
      · rw [List.getElem?_drop] at hb
        have harith : offset + (tailLoop (content.drop offset)).2 - 1
            = offset + ((tailLoop (content.drop offset)).2 - 1) := by omega
        rw [harith]
        exact hb
  · rw [tail_reading content paths offset hlt]
    simp only []
    rw [← tailLoop_length_eq_count]
    by_cases hz : ((tailLoop (content.drop offset)).1.map
        (fun l => paths.map (fun p => LineBuilder.mk l p))).length = 0
    · rw [if_pos hz]
      simp only [List.length_map] at hz
      simp [hz]
    · rw [if_neg hz]
      simp
  · intro hnn
    rw [tail_reading content paths offset hlt, tailLoop_no_newline _ hnn]
    simp

/-- Witness for C2 at content `"a\nb"` (bytes [97, 10, 98]), offset 0. -/
theorem claim_C2_witness :
    (0 < [97, 10, 98].length ∧ ([97, 10, 98].drop 0).getLast? ≠ some 10) ∧
    ((10 ∉ [97, 10, 98].drop (tail [97, 10, 98] ["p"] 0).2) ∧
    ((tail [97, 10, 98] ["p"] 0).2 = 0 ∨
      [97, 10, 98][(tail [97, 10, 98] ["p"] 0).2 - 1]? = some 10) ∧
    (((tail [97, 10, 98] ["p"] 0).1.getD []).length = ([97, 10, 98].drop 0).count 10) ∧
    (10 ∉ [97, 10, 98].drop 0 → tail [97, 10, 98] ["p"] 0 = (none, 0))) :=
  ⟨⟨by decide, by decide⟩,
   claim_C2_partial_line_safety [97, 10, 98] ["p"] 0 (by decide) (by decide)⟩

/-- C3: a pass with `length < offset` (truncation) emits nothing and
resets the offset to 0 when the new length is under 8192 and to the new
length otherwise. -/
theorem claim_C3_truncation (content : List Nat) (paths : List String)
    (offset : Nat) (h : content.length < offset) :
    (tail content paths offset).1 = none ∧
    (tail content paths offset).2
      = if content.length < 8192 then 0 else content.length := by
  rw [tail_truncated content paths offset h]
  exact ⟨rfl, rfl⟩

/-- Witness for C3 at content `"a\n"` (length 2 < 8192), offset 5. -/
theorem claim_C3_witness :
    ([97, 10].length < 5) ∧
    ((tail [97, 10] ["p"] 5).1 = none ∧
     (tail [97, 10] ["p"] 5).2 = if [97, 10].length < 8192 then 0 else [97, 10].length) :=
  ⟨by decide, claim_C3_truncation [97, 10] ["p"] 5 (by decide)⟩

/-- C4: in a read pass starting at or before end-of-file, the emitted
batch replicates each complete line once per resolved path, every emitted
line has its newline removed, the offset advances by exactly the bytes
consumed (line bytes plus one newline each), and re-appending the
newlines reconstructs the consumed region byte for byte. -/
theorem claim_C4_line_emission (content : List Nat) (paths : List String)
    (offset : Nat) (h : offset ≤ content.length) :
    ((tail content paths offset).1.getD []
        = (tailLoop (content.drop offset)).1.map
            (fun l => paths.map (fun p => LineBuilder.mk l p))) ∧
    (∀ l ∈ (tailLoop (content.drop offset)).1, 10 ∉ l) ∧
    ((tail content paths offset).2
        = offset + ((tailLoop (content.drop offset)).1.map (fun l => l.length + 1)).sum) ∧
    (((tailLoop (content.drop offset)).1.map (fun l => l ++ [10])).flatten
        = (content.drop offset).take ((tail content paths offset).2 - offset)) := by
  rcases Nat.lt_or_ge offset content.length with hlt | hge
  · rw [tail_reading content paths offset hlt]
    refine ⟨?_, tailLoop_lines_no_newline _, ?_, ?_⟩
    · simp only []
      by_cases hz : ((tailLoop (content.drop offset)).1.map
          (fun l => paths.map (fun p => LineBuilder.mk l p))).length = 0
      · rw [if_pos hz]
        simp only [List.length_map] at hz
        rw [List.length_eq_zero] at hz
        simp [hz]
      · rw [if_neg hz]
        simp
    · simp only []
      rw [← tailLoop_consumed_eq_sum]
    · simp only []
      rw [Nat.add_sub_cancel_left]
      exact tailLoop_flatten (content.drop offset)
  · have heq : offset = content.length := le_antisymm h hge
    rw [tail_at_eof content paths offset heq]
    subst heq
    simp [List.drop_length, tailLoop_nil]

/-- Witness for C4 at content `"a\nb"`, offset 0, two resolved paths. -/
theorem claim_C4_witness :
    (0 ≤ [97, 10, 98].length) ∧
    (((tail [97, 10, 98] ["p", "q"] 0).1.getD []
        = (tailLoop ([97, 10, 98].drop 0)).1.map
            (fun l => ["p", "q"].map (fun p => LineBuilder.mk l p))) ∧
    (∀ l ∈ (tailLoop ([97, 10, 98].drop 0)).1, 10 ∉ l) ∧
    ((tail [97, 10, 98] ["p", "q"] 0).2
        = 0 + ((tailLoop ([97, 10, 98].drop 0)).1.map (fun l => l.length + 1)).sum) ∧
    (((tailLoop ([97, 10, 98].drop 0)).1.map (fun l => l ++ [10])).flatten
        = ([97, 10, 98].drop 0).take ((tail [97, 10, 98] ["p", "q"] 0).2 - 0))) :=
  ⟨by decide, claim_C4_line_emission [97, 10, 98] ["p", "q"] 0 (by decide)⟩

/-- C5: an `Initialize` event on a `File` entry sets the offset to the
stat-reported length when that length is at least 8192 and to 0 below
8192; a pre-existing 2,000,000-byte file gets offset 2,000,000.  No batch
is emitted. -/
theorem claim_C5_init_offset (offset : Nat) (content : List Nat)
    (paths : List String) (len : Nat) :
    ((processEvent offset content paths (some len) .init).1
        = if len < 8192 then 0 else len) ∧
    ((processEvent offset content paths (some 2000000) .init).1 = 2000000) ∧
    ((processEvent offset content paths (some len) .init).2 = []) := by
  refine ⟨?_, ?_, rfl⟩
  · simp [processEvent]
  · simp [processEvent]

/-- C6: delivering the same `Write` twice with no intervening growth
(content unchanged, first pass starting at or before end-of-file) emits no
batch on the second delivery. -/
theorem claim_C6_write_idempotent (offset : Nat) (content : List Nat)
    (paths : List String) (statLen : Option Nat) (h : offset ≤ content.length) :
    (processEvent (processEvent offset content paths statLen .write).1
        content paths statLen .write).2 = [] := by
  by_cases hp : paths.isEmpty
  · simp [processEvent, hp]
  · simp only [processEvent, if_neg hp, Bool.false_eq_true, if_false]
    rw [tail_twice_none content paths offset h]
    rfl

/-- Witness for C6 at content `"a\nb"` (ends in a fragment), offset 0. -/
theorem claim_C6_witness :
    (0 ≤ [97, 10, 98].length) ∧
    (processEvent (processEvent 0 [97, 10, 98] ["p"] none .write).1
        [97, 10, 98] ["p"] none .write).2 = [] :=
  ⟨by decide, claim_C6_write_idempotent 0 [97, 10, 98] ["p"] none (by decide)⟩

/-- C8 counterexample: a `New` event on a `File` entry whose
`resolve_valid_paths` result is empty falls outside the
`!paths.is_empty()` guard (`tail.rs` line 68), so the stored offset is not
set to 0 and no read happens: with stored offset 5 the offset stays 5. -/
theorem claim_C8_counterexample :
    (processEvent 5 [97, 10] [] none .new).1 ≠ 0 ∧
    processEvent 5 [97, 10] [] none .new = (5, []) := by
  constructor
  · decide
  · rfl

/-- C8 amended: on a `New` event on a `File` entry that resolves to at
least one valid path, the offset is set to 0 and a read from offset 0 is
performed (the resulting offset and batch are those of `tail` from 0). -/
theorem claim_C8_new_amended (offset : Nat) (content : List Nat)
    (paths : List String) (statLen : Option Nat) (h : paths ≠ []) :
    processEvent offset content paths statLen .new
      = ((tail content paths 0).2, (tail content paths 0).1.getD []) := by
  have hp : paths.isEmpty = false := by
    cases paths with
    | nil => exact absurd rfl h
    | cons a l => rfl
  simp [processEvent, hp]

/-- Witness for the amended C8 with one resolved path. -/
theorem claim_C8_witness :
    ((["p"] : List String) ≠ []) ∧
    processEvent 5 [97, 10] ["p"] none .new
      = ((tail [97, 10] ["p"] 0).2, (tail [97, 10] ["p"] 0).1.getD []) :=
  ⟨by decide, claim_C8_new_amended 5 [97, 10] ["p"] none (by decide)⟩

end Tailer

/-- Model of `Entry<T>` (`cache/entry.rs` lines 12-33): a tree node
mirroring one filesystem object.  `EntryPtr` back-references and the open
`File` handle are modelled as opaque numeric identifiers; `OsString`
names and `PathBuf` links as strings; `Rules` as an opaque identifier;
`T` stays generic (the tailer instantiates it with the `u64` offset). -/
inductive Entry (T : Type) where
  | file (name : String) (parent : Nat) (wd : Nat) (data : T) (file_handle : Nat)
  | dir (name : String) (parent : Option Nat) (children : List Nat) (wd : Nat)
  | symlink (name : String) (parent : Nat) (link : String) (wd : Nat) (rules : Nat)
  deriving Repr, DecidableEq

namespace Entry

/-- `Entry::name` (`cache/entry.rs` lines 36-42). -/
def name {T : Type} : Entry T → String
  | .file n _ _ _ _ => n
  | .dir n _ _ _ => n
  | .symlink n _ _ _ _ => n

/-- `Entry::parent` (`cache/entry.rs` lines 44-49). -/
def parent {T : Type} : Entry T → Option Nat
  | .file _ p _ _ _ => some p
  | .symlink _ p _ _ _ => some p
  | .dir _ p _ _ => p

/-- `Entry::set_parent` (`cache/entry.rs` lines 51-56). -/
def set_parent {T : Type} (e : Entry T) (new_parent : Nat) : Entry T :=
  match e with
  | .file n _ wd d fh => .file n new_parent wd d fh
  | .symlink n _ l wd r => .symlink n new_parent l wd r
  | .dir n _ c wd => .dir n (some new_parent) c wd

/-- `Entry::set_name` (`cache/entry.rs` lines 58-64). -/
def set_name {T : Type} (e : Entry T) (new_name : String) : Entry T :=
  match e with
  | .file _ p wd d fh => .file new_name p wd d fh
  | .dir _ p c wd => .dir new_name p c wd
  | .symlink _ p l wd r => .symlink new_name p l wd r

/-- `Entry::watch_descriptor` (`cache/entry.rs` lines 80-84). -/
def watch_descriptor {T : Type} : Entry T → Nat
  | .file _ _ wd _ _ => wd
  | .dir _ _ _ wd => wd
  | .symlink _ _ _ wd _ => wd

/-- `Entry::data_mut` as a read of the `File` payload (`cache/entry.rs`
lines 86-91): `none` for `Dir` and `Symlink`. -/
def data? {T : Type} : Entry T → Option T
  | .file _ _ _ d _ => some d
  | _ => none

/-- `Entry::file_handle` (`cache/entry.rs` lines 93-98). -/
def file_handle? {T : Type} : Entry T → Option Nat
  | .file _ _ _ _ fh => some fh
  | _ => none

/-- Modelled from the spec: the Filesystem Cache's handling of a
`Move(old,new)` event whose old and new locations are both inside the
supervised tree (the cache module `cache/mod.rs` is not among the given
sources; spec section 4.3: "Move(old,new) fully inside the supervised
tree: update parent/name in place without touching the watch, open
handle, or offset").  It updates the entry through `Entry::set_parent`
and `Entry::set_name`, the mutators the source provides. -/
def applyMove {T : Type} (e : Entry T) (new_parent : Nat) (new_name : String) : Entry T :=
  (e.set_parent new_parent).set_name new_name

end Entry

/-- C7: applying an in-tree `Move` to an entry changes only its name and
parent link; the watch descriptor, the open file handle, and the stored
read offset (the `File` payload) are all unchanged. -/
theorem claim_C7_move_preserves_identity {T : Type} (e : Entry T)
    (new_parent : Nat) (new_name : String) :
    (Entry.applyMove e new_parent new_name).watch_descriptor = e.watch_descriptor ∧
    (Entry.applyMove e new_parent new_name).data? = e.data? ∧
    (Entry.applyMove e new_parent new_name).file_handle? = e.file_handle? ∧
    (Entry.applyMove e new_parent new_name).name = new_name ∧
    (Entry.applyMove e new_parent new_name).parent = some new_parent := by
  cases e <;>
    exact ⟨rfl, rfl, rfl, rfl, rfl⟩

namespace Watcher

/-- `INOTIFY_EVENT_GRACE_PERIOD_MS` (`watch.rs` line 13). -/
def INOTIFY_EVENT_GRACE_PERIOD_MS : Nat := 1000

/-- Model of `WatchEvent` (`watch.rs` lines 15-44): watch descriptors as
numeric identifiers, `OsString` names as strings, rename cookies as
naturals. -/
inductive WatchEvent where
  | create (wd : Nat) (name : String)
  | modify (wd : Nat)
  | delete (wd : Nat) (name : String)
  | move (from_wd : Nat) (from_name : String) (to_wd : Nat) (to_name : String)
  | movedFrom (wd : Nat) (name : String) (cookie : Nat)
  | movedTo (wd : Nat) (name : String) (cookie : Nat)
  | overflow
  deriving Repr, DecidableEq

/-- Model of a raw `inotify::Event`: the mask bits `Watcher::read_events`
inspects, the watch descriptor, the optional name, and the rename
cookie. -/
structure RawEvent where
  maskMovedFrom : Bool
  maskMovedTo : Bool
  maskCreate : Bool
  maskDelete : Bool
  maskModify : Bool
  maskOverflow : Bool
  wd : Nat
  name : Option String
  cookie : Nat
  deriving Repr, DecidableEq

/-- The pairing buffers of `Watcher::read_events` (`watch.rs` lines
75-78): unmatched rename halves with their arrival instants
(milliseconds). -/
structure WatcherState where
  unmatched_move_to : List (Nat × WatchEvent)
  unmatched_move_from : List (Nat × WatchEvent)
  deriving Repr, DecidableEq

/-- The cookie test used by the `position` searches (`watch.rs` lines
104-117 and 160-174). -/
def hasMovedToCookie (c : Nat) : Nat × WatchEvent → Bool
  | (_, WatchEvent.movedTo _ _ cookie) => cookie == c
  | _ => false

def hasMovedFromCookie (c : Nat) : Nat × WatchEvent → Bool
  | (_, WatchEvent.movedFrom _ _ cookie) => cookie == c
  | _ => false

/-- `Vec::swap_remove(idx)`: return the element at `idx` after replacing
it by the last element.  Only called with a valid index. -/
def swapRemove (l : List (Nat × WatchEvent)) (idx : Nat) :
    (Nat × WatchEvent) × List (Nat × WatchEvent) :=
  (l.getD idx (0, WatchEvent.overflow),
   (l.set idx (l.getLastD (0, WatchEvent.overflow))).dropLast)

/-- Model of the raw-notification arm of `Watcher::read_events`
(`watch.rs` lines 95-241): mask bits are tested in source order and the
pairing buffers are consulted/updated.  `none` models a panic from
`raw_event.name.unwrap()` on a missing name (`watch.rs` lines 135, 150,
196, 211, 221, 226); otherwise the updated state and the (possibly
discarded) reconciled event are returned. -/
def processRawEvent (st : WatcherState) (now : Nat) (ev : RawEvent) :
    Option (WatcherState × List WatchEvent) :=
  if ev.maskMovedFrom then
    match st.unmatched_move_to.findIdx? (hasMovedToCookie ev.cookie) with
    | some idx =>
        match (swapRemove st.unmatched_move_to idx).1 with
        | (_, WatchEvent.movedTo wd name _) =>
            match ev.name with
            | some n =>
                some ({ st with unmatched_move_to := (swapRemove st.unmatched_move_to idx).2 },
                      [WatchEvent.move ev.wd n wd name])
            | none => none
        | _ => some ({ st with unmatched_move_to := (swapRemove st.unmatched_move_to idx).2 }, [])
    | none =>
        match ev.name with
        | some n =>
            some ({ st with unmatched_move_from :=
                      st.unmatched_move_from ++ [(now, WatchEvent.movedFrom ev.wd n ev.cookie)] },
                  [])
        | none => none
  else if ev.maskMovedTo then
    match st.unmatched_move_from.findIdx? (hasMovedFromCookie ev.cookie) with
    | some idx =>
        match (swapRemove st.unmatched_move_from idx).1 with
        | (_, WatchEvent.movedFrom wd name _) =>
            match ev.name with
            | some n =>
                some ({ st with unmatched_move_from := (swapRemove st.unmatched_move_from idx).2 },
                      [WatchEvent.move wd name ev.wd n])
            | none => none
        | _ => some ({ st with unmatched_move_from := (swapRemove st.unmatched_move_from idx).2 }, [])
    | none =>
        match ev.name with
        | some n =>
            some ({ st with unmatched_move_to :=
                      st.unmatched_move_to ++ [(now, WatchEvent.movedTo ev.wd n ev.cookie)] },
                  [])
        | none => none
  else if ev.maskCreate then
    match ev.name with
    | some n => some (st, [WatchEvent.create ev.wd n])
    | none => none
  else if ev.maskDelete then
    match ev.name with
    | some n => some (st, [WatchEvent.delete ev.wd n])
    | none => none
  else if ev.maskModify then
    some (st, [WatchEvent.modify ev.wd])
  else if ev.maskOverflow then
    some (st, [WatchEvent.overflow])
  else
    some (st, [])

/-- The expiry sweep of one buffer on a heartbeat tick (`watch.rs` lines
250-280): while an entry older than the grace period exists, swap-remove
it and re-emit its buffered event. -/
def expireEntries (l : List (Nat × WatchEvent)) (now : Nat) :
    List (Nat × WatchEvent) × List WatchEvent :=
  match hidx : l.findIdx? (fun p => decide (p.1 < now - INOTIFY_EVENT_GRACE_PERIOD_MS)) with
  | none => (l, [])
  | some idx =>
      ((expireEntries (swapRemove l idx).2 now).1,
       (swapRemove l idx).1.2 :: (expireEntries (swapRemove l idx).2 now).2)
termination_by l.length
decreasing_by
  all_goals
    have hne : l ≠ [] := by
      rintro rfl
      rw [List.findIdx?_nil] at hidx
      exact Option.noConfusion hidx
    simp only [swapRemove, List.length_dropLast, List.length_set]
    have : 0 < l.length := List.length_pos.mpr hne
    omega

/-- Model of the heartbeat arm of `Watcher::read_events` (`watch.rs`
lines 242-285): expire the `unmatched_move_to` buffer, then the
`unmatched_move_from` buffer, re-emitting expired halves in that order. -/
def processInterval (st : WatcherState) (now : Nat) : WatcherState × List WatchEvent :=
  (⟨(expireEntries st.unmatched_move_to now).1,
    (expireEntries st.unmatched_move_from now).1⟩,
   (expireEntries st.unmatched_move_to now).2 ++ (expireEntries st.unmatched_move_from now).2)

/-- One item of the merged stream in `Watcher::read_events` (`watch.rs`
lines 82-90): either a raw inotify notification or a heartbeat tick,
with its arrival instant. -/
inductive StreamItem where
  | raw (now : Nat) (ev : RawEvent)
  | interval (now : Nat)
  deriving Repr, DecidableEq

/-- One step of the reconciler (`watch.rs` lines 91-296): `none` models a
panic while handling the item. -/
def step (st : WatcherState) : StreamItem → Option (WatcherState × List WatchEvent)
  | .raw now ev => processRawEvent st now ev
  | .interval now => some (processInterval st now)

/-- Run the reconciler over a list of merged stream items, concatenating
the reconciled events it emits. -/
def run (st : WatcherState) : List StreamItem → Option (WatcherState × List WatchEvent)
  | [] => some (st, [])
  | i :: rest =>
      match step st i with
      | none => none
      | some (st1, evs) =>
          match run st1 rest with
          | none => none
          | some (st2, evs2) => some (st2, evs ++ evs2)

/-- The empty initial state of the pairing buffers (`watch.rs` lines
75-78). -/
def initState : WatcherState := ⟨[], []⟩

/-- A raw `MOVED_FROM` notification. -/
def rawMovedFrom (wd : Nat) (name : Option String) (cookie : Nat) : RawEvent :=
  ⟨true, false, false, false, false, false, wd, name, cookie⟩

/-- A raw `MOVED_TO` notification. -/
def rawMovedTo (wd : Nat) (name : Option String) (cookie : Nat) : RawEvent :=
  ⟨false, true, false, false, false, false, wd, name, cookie⟩

end Watcher


namespace Watcher

theorem expireEntries_nil (now : Nat) : expireEntries [] now = ([], []) := by
  rw [expireEntries]
  simp [List.findIdx?_nil]

/-- A single buffered half still within the grace window survives a
heartbeat tick. -/
theorem expireEntries_single_keep (t now : Nat) (e : WatchEvent)
    (h : ¬ t < now - INOTIFY_EVENT_GRACE_PERIOD_MS) :
    expireEntries [(t, e)] now = ([(t, e)], []) := by
  rw [expireEntries]
  split
  · rfl
  · rename_i idx hidx
    rw [List.findIdx?_cons] at hidx
    simp [h] at hidx

/-- A single buffered half beyond the grace window is flushed and its
event re-emitted. -/
theorem expireEntries_single_expire (t now : Nat) (e : WatchEvent)
    (h : t < now - INOTIFY_EVENT_GRACE_PERIOD_MS) :
    expireEntries [(t, e)] now = ([], [e]) := by
  rw [expireEntries]
  split
  · rename_i hidx
    rw [List.findIdx?_cons] at hidx
    simp [h] at hidx
  · rename_i idx hidx
    rw [List.findIdx?_cons] at hidx
    simp [h] at hidx
    subst hidx
    simp [swapRemove, expireEntries_nil]

/-- A moved-from half finding no buffered moved-to with its cookie is
buffered and nothing is emitted. -/
theorem step_movedFrom_buffers (t1 wd c : Nat) (n : String) :
    step initState (.raw t1 (rawMovedFrom wd (some n) c))
      = some (⟨[], [(t1, WatchEvent.movedFrom wd n c)]⟩, []) := by
  simp [step, processRawEvent, rawMovedFrom, initState, List.findIdx?_nil]

/-- A moved-to half finding no buffered moved-from with its cookie is
buffered and nothing is emitted. -/
theorem step_movedTo_buffers (t1 wd c : Nat) (n : String) :
    step initState (.raw t1 (rawMovedTo wd (some n) c))
      = some (⟨[(t1, WatchEvent.movedTo wd n c)], []⟩, []) := by
  simp [step, processRawEvent, rawMovedTo, initState, List.findIdx?_nil]

/-- A moved-to half matching the one buffered moved-from with its cookie
pairs into a single `Move` and empties the buffer. -/
theorem step_movedTo_pairs (t1 t2 wd1 wd2 c : Nat) (n1 n2 : String) :
    step ⟨[], [(t1, WatchEvent.movedFrom wd1 n1 c)]⟩ (.raw t2 (rawMovedTo wd2 (some n2) c))
      = some (initState, [WatchEvent.move wd1 n1 wd2 n2]) := by
  simp [step, processRawEvent, rawMovedTo, List.findIdx?_cons, hasMovedFromCookie,
    swapRemove, initState]

/-- A moved-from half matching the one buffered moved-to with its cookie
pairs into a single `Move` and empties the buffer. -/
theorem step_movedFrom_pairs (t1 t2 wd1 wd2 c : Nat) (n1 n2 : String) :
    step ⟨[(t1, WatchEvent.movedTo wd2 n2 c)], []⟩ (.raw t2 (rawMovedFrom wd1 (some n1) c))
      = some (initState, [WatchEvent.move wd1 n1 wd2 n2]) := by
  simp [step, processRawEvent, rawMovedFrom, List.findIdx?_cons, hasMovedToCookie,
    swapRemove, initState]

/-- A heartbeat within the grace window of a lone buffered moved-from
leaves it in place. -/
theorem step_interval_keep_mf (t now wd c : Nat) (n : String)
    (h : ¬ t < now - INOTIFY_EVENT_GRACE_PERIOD_MS) :
    step ⟨[], [(t, WatchEvent.movedFrom wd n c)]⟩ (.interval now)
      = some (⟨[], [(t, WatchEvent.movedFrom wd n c)]⟩, []) := by
  simp [step, processInterval, expireEntries_nil, expireEntries_single_keep t now _ h]

/-- A heartbeat within the grace window of a lone buffered moved-to
leaves it in place. -/
theorem step_interval_keep_mt (t now wd c : Nat) (n : String)
    (h : ¬ t < now - INOTIFY_EVENT_GRACE_PERIOD_MS) :
    step ⟨[(t, WatchEvent.movedTo wd n c)], []⟩ (.interval now)
      = some (⟨[(t, WatchEvent.movedTo wd n c)], []⟩, []) := by
  simp [step, processInterval, expireEntries_nil, expireEntries_single_keep t now _ h]

/-- A heartbeat beyond the grace window of a lone buffered moved-from
flushes it as an unpaired `MovedFrom`. -/
theorem step_interval_expire_mf (t now wd c : Nat) (n : String)
    (h : t < now - INOTIFY_EVENT_GRACE_PERIOD_MS) :
    step ⟨[], [(t, WatchEvent.movedFrom wd n c)]⟩ (.interval now)
      = some (initState, [WatchEvent.movedFrom wd n c]) := by
  simp [step, processInterval, initState, expireEntries_nil,
    expireEntries_single_expire t now _ h]

/-- A heartbeat beyond the grace window of a lone buffered moved-to
flushes it as an unpaired `MovedTo`. -/
theorem step_interval_expire_mt (t now wd c : Nat) (n : String)
    (h : t < now - INOTIFY_EVENT_GRACE_PERIOD_MS) :
    step ⟨[(t, WatchEvent.movedTo wd n c)], []⟩ (.interval now)
      = some (initState, [WatchEvent.movedTo wd n c]) := by
  simp [step, processInterval, initState, expireEntries_nil,
    expireEntries_single_expire t now _ h]

/-- Chaining equation for `run` when the head step succeeds. -/
theorem run_cons (st st1 : WatcherState) (i : StreamItem) (evs : List WatchEvent)
    (rest : List StreamItem) (h : step st i = some (st1, evs)) :
    run st (i :: rest)
      = match run st1 rest with
        | none => none
        | some (st2, evs2) => some (st2, evs ++ evs2) := by
  rw [run, h]

open StreamItem in
/-- C1: for a moved-from/moved-to pair with equal cookie, when the second
half arrives while the first is still within the grace window (a
heartbeat may tick in between without expiring it), the reconciler emits
exactly one `Move` carrying the from descriptor/name and the to
descriptor/name and re-emits neither raw half — in either arrival order;
when the two halves are separated beyond the grace window, each half is
re-emitted by the heartbeat as its own independent unpaired event. -/
theorem claim_C1_rename_pairing (wd1 wd2 c t1 tmid t2 texp1 texp2 : Nat)
    (n1 n2 : String)
    (hmid : tmid ≤ t1 + INOTIFY_EVENT_GRACE_PERIOD_MS)
    (hexp1 : t1 + INOTIFY_EVENT_GRACE_PERIOD_MS < texp1)
    (hexp2 : t2 + INOTIFY_EVENT_GRACE_PERIOD_MS < texp2) :
    (run initState [raw t1 (rawMovedFrom wd1 (some n1) c), interval tmid,
        raw t2 (rawMovedTo wd2 (some n2) c)]
      = some (initState, [WatchEvent.move wd1 n1 wd2 n2])) ∧
    (run initState [raw t1 (rawMovedTo wd2 (some n2) c), interval tmid,
        raw t2 (rawMovedFrom wd1 (some n1) c)]
      = some (initState, [WatchEvent.move wd1 n1 wd2 n2])) ∧
    (run initState [raw t1 (rawMovedFrom wd1 (some n1) c), interval texp1,
        raw t2 (rawMovedTo wd2 (some n2) c), interval texp2]
      = some (initState, [WatchEvent.movedFrom wd1 n1 c, WatchEvent.movedTo wd2 n2 c])) := by
  have hnot1 : ¬ t1 < tmid - INOTIFY_EVENT_GRACE_PERIOD_MS := by
    simp only [INOTIFY_EVENT_GRACE_PERIOD_MS] at hmid ⊢
    omega
  have hyes1 : t1 < texp1 - INOTIFY_EVENT_GRACE_PERIOD_MS := by
    simp only [INOTIFY_EVENT_GRACE_PERIOD_MS] at hexp1 ⊢
    omega
  have hyes2 : t2 < texp2 - INOTIFY_EVENT_GRACE_PERIOD_MS := by
    simp only [INOTIFY_EVENT_GRACE_PERIOD_MS] at hexp2 ⊢
    omega
  refine ⟨?_, ?_, ?_⟩
  · rw [run_cons _ _ _ _ _ (step_movedFrom_buffers t1 wd1 c n1),
      run_cons _ _ _ _ _ (step_interval_keep_mf t1 tmid wd1 c n1 hnot1),
      run_cons _ _ _ _ _ (step_movedTo_pairs t1 t2 wd1 wd2 c n1 n2),
      run]
    rfl
  · rw [run_cons _ _ _ _ _ (step_movedTo_buffers t1 wd2 c n2),
      run_cons _ _ _ _ _ (step_interval_keep_mt t1 tmid wd2 c n2 hnot1),
      run_cons _ _ _ _ _ (step_movedFrom_pairs t1 t2 wd1 wd2 c n1 n2),
      run]
    rfl
  · rw [run_cons _ _ _ _ _ (step_movedFrom_buffers t1 wd1 c n1),
      run_cons _ _ _ _ _ (step_interval_expire_mf t1 texp1 wd1 c n1 hyes1),
      run_cons _ _ _ _ _ (step_movedTo_buffers t2 wd2 c n2),
      run_cons _ _ _ _ _ (step_interval_expire_mt t2 texp2 wd2 c n2 hyes2),
      run]
    rfl

open StreamItem in
/-- Witness for C1 at concrete descriptors, names, cookie and instants. -/
theorem claim_C1_witness :
    (900 ≤ 0 + INOTIFY_EVENT_GRACE_PERIOD_MS ∧
     0 + INOTIFY_EVENT_GRACE_PERIOD_MS < 1500 ∧
     2000 + INOTIFY_EVENT_GRACE_PERIOD_MS < 3500) ∧
    ((run initState [raw 0 (rawMovedFrom 1 (some "a") 7), interval 900,
        raw 2000 (rawMovedTo 2 (some "b") 7)]
      = some (initState, [WatchEvent.move 1 "a" 2 "b"])) ∧
    (run initState [raw 0 (rawMovedTo 2 (some "b") 7), interval 900,
        raw 2000 (rawMovedFrom 1 (some "a") 7)]
      = some (initState, [WatchEvent.move 1 "a" 2 "b"])) ∧
    (run initState [raw 0 (rawMovedFrom 1 (some "a") 7), interval 1500,
        raw 2000 (rawMovedTo 2 (some "b") 7), interval 3500]
      = some (initState, [WatchEvent.movedFrom 1 "a" 7, WatchEvent.movedTo 2 "b" 7]))) :=
  ⟨⟨by decide, by decide, by decide⟩,
   claim_C1_rename_pairing 1 2 7 0 900 2000 1500 3500 "a" "b"
     (by decide) (by decide) (by decide)⟩

end Watcher

open Watcher in
/-- C9 counterexample: the claim says event processing never panics even
for a rename half with a missing name field, but `Watcher::read_events`
calls `raw_event.name.unwrap()` on a `MOVED_FROM` notification
(`watch.rs` line 150), which panics when the name is absent: one raw
moved-from notification with no name makes the step panic (modelled as
`none`). -/
theorem claim_C9_counterexample :
    Watcher.step initState (.raw 0 (rawMovedFrom 1 none 7)) = none := rfl

open Watcher in
/-- C9 amended: processing never panics provided every raw notification
carries a name field; heartbeat-driven buffer expiry never panics. -/
theorem claim_C9_no_panic_amended (st : WatcherState) (now : Nat) (ev : RawEvent)
    (h : ev.name.isSome) :
    (Watcher.step st (.raw now ev)).isSome ∧
    (Watcher.step st (.interval now)).isSome := by
  obtain ⟨n, hn⟩ := Option.isSome_iff_exists.mp h
  refine ⟨?_, by simp [Watcher.step]⟩
  simp only [Watcher.step, processRawEvent, hn]
  by_cases h1 : ev.maskMovedFrom
  · simp only [if_pos h1]
    cases hidx : st.unmatched_move_to.findIdx? (hasMovedToCookie ev.cookie) with
    | none => simp
    | some idx =>
        simp only []
        rcases hsw : (swapRemove st.unmatched_move_to idx).1 with ⟨t, e⟩
        cases e <;> simp
  · rw [if_neg h1]
    by_cases h2 : ev.maskMovedTo
    · simp only [if_pos h2]
      cases hidx : st.unmatched_move_from.findIdx? (hasMovedFromCookie ev.cookie) with
      | none => simp
      | some idx =>
          simp only []
          rcases hsw : (swapRemove st.unmatched_move_from idx).1 with ⟨t, e⟩
          cases e <;> simp
    · rw [if_neg h2]
      by_cases h3 : ev.maskCreate
      · simp [if_pos h3]
      · rw [if_neg h3]
        by_cases h4 : ev.maskDelete
        · simp [if_pos h4]
        · rw [if_neg h4]
          by_cases h5 : ev.maskModify
          · simp [if_pos h5]
          · rw [if_neg h5]
            by_cases h6 : ev.maskOverflow
            · simp [if_pos h6]
            · simp [if_neg h6]

open Watcher in
/-- Witness for the amended C9: a named moved-from notification and a
heartbeat both process without panicking. -/
theorem claim_C9_witness :
    ((rawMovedFrom 1 (some "a") 7).name.isSome = true) ∧
    ((Watcher.step initState (.raw 0 (rawMovedFrom 1 (some "a") 7))).isSome ∧
     (Watcher.step initState (.interval 0)).isSome) :=
  ⟨by decide,
   claim_C9_no_panic_amended initState 0 (rawMovedFrom 1 (some "a") 7) (by decide)⟩

namespace Tailer

/-- Opaque model of the configured `Rules`. -/
structure Rules where
  id : Nat
  deriving Repr, DecidableEq

/-- Model of the `Tailer` struct (`tail.rs` lines 18-21): the construction
state consumed by `begin_processing`. -/
structure TailerState where
  watched_dirs : Option (List String)
  rules : Option Rules
  deriving Repr, DecidableEq

/-- `Tailer::new` (`tail.rs` lines 25-30). -/
def TailerState.new (watched_dirs : List String) (rules : Rules) : TailerState :=
  ⟨some watched_dirs, some rules⟩

/-- Outcome of one `begin_processing` call: either processing was started
with the consumed configuration, or an error was logged and the call
returned immediately.  The source method returns `()` in every case, so
no failure is propagated to the caller. -/
inductive BeginOutcome where
  | started (watched_dirs : List String) (rules : Rules)
  | errMissingDirs
  | errMissingRules
  deriving Repr, DecidableEq

/-- Model of `Source::begin_processing` for `Tailer` (`tail.rs` lines
222-241): `Option::take` each configuration field, logging an error and
returning early when one is already consumed, otherwise spawning the
processing task with the taken configuration. -/
def begin_processing (t : TailerState) : TailerState × BeginOutcome :=
  match t.watched_dirs with
  | none => ({ t with watched_dirs := none }, .errMissingDirs)
  | some watched_dirs =>
      match t.rules with
      | none => ({ t with watched_dirs := none, rules := none }, .errMissingRules)
      | some rules =>
          ({ t with watched_dirs := none, rules := none }, .started watched_dirs rules)

/-- C10: `begin_processing` is single-shot.  The first call on a freshly
constructed `Tailer` starts processing and consumes the watched
directories and rules; a second call (or any call on a `Tailer` whose
construction state was consumed) does not start processing, leaves the
state consumed, and — the result being an outcome, not an error value —
propagates no failure to the caller. -/
theorem claim_C10_begin_processing_single_shot (dirs : List String) (rules : Rules) :
    (begin_processing (TailerState.new dirs rules)
        = (⟨none, none⟩, .started dirs rules)) ∧
    (begin_processing (begin_processing (TailerState.new dirs rules)).1
        = (⟨none, none⟩, .errMissingDirs)) ∧
    (∀ t : TailerState, t.watched_dirs = none →
        (begin_processing t).2 ≠ BeginOutcome.started dirs rules ∧
        (begin_processing t).1.watched_dirs = none) := by
  refine ⟨rfl, rfl, ?_⟩
  intro t ht
  rw [begin_processing, ht]
  exact ⟨fun h => BeginOutcome.noConfusion h, rfl⟩

end Tailer

/-- Witness for C10: a call on a consumed `Tailer` does not start and
stays consumed. -/
theorem claim_C10_witness :
    (Tailer.begin_processing (⟨none, some ⟨0⟩⟩ : Tailer.TailerState)).2
        ≠ Tailer.BeginOutcome.started ["d"] ⟨0⟩ ∧
    (Tailer.begin_processing (⟨none, some ⟨0⟩⟩ : Tailer.TailerState)).1.watched_dirs = none :=
  (Tailer.claim_C10_begin_processing_single_shot ["d"] ⟨0⟩).2.2 ⟨none, some ⟨0⟩⟩ rfl
